import Mathlib

/-!
Verification of the `gogit` package (a binding of Go to a native git
library) against its natural-language specification.

The binding itself contains no algorithmic code: every operation forwards
to the native library and translates its error code.  The specification
therefore describes a reconstructed core — a configuration store, a
content-identifier codec, an object-database reader and a repository
layer — and this file embeds that core.  Definitions whose doc comment
starts with `Modelled from the spec:` stand for native-library behaviour
that is absent from the repository's own sources; the remaining
definitions (the `Config` wrapper methods, `GitError`) are translated
directly from the Go source file `git.go`.
-/

namespace Gogit

/-- Association-list lookup keyed by a type with decidable equality.
The first binding for a key wins, matching a map whose `setKey` below
replaces in place. -/
def lookupKey {κ α : Type} [DecidableEq κ] : List (κ × α) → κ → Option α
  | [], _ => none
  | (k, v) :: rest, key => if k = key then some v else lookupKey rest key

/-- Association-list update: replaces the binding for `key` if present,
otherwise appends a fresh binding at the end. -/
def setKey {κ α : Type} [DecidableEq κ] : List (κ × α) → κ → α → List (κ × α)
  | [], key, value => [(key, value)]
  | (k, v) :: rest, key, value =>
      if k = key then (key, value) :: rest else (k, v) :: setKey rest key value

/-- Decimal digits of a natural number, most significant first,
as ASCII characters. -/
def digitsOf (n : Nat) : List Char :=
  if h : n < 10 then [Char.ofNat (48 + n)]
  else digitsOf (n / 10) ++ [Char.ofNat (48 + n % 10)]
decreasing_by exact Nat.div_lt_self (by omega) (by omega)

/-- Left-to-right decimal accumulator: consumes ASCII digits, extending
the accumulated value, and fails on the first non-digit character. -/
def parseNatFrom (a : Nat) : List Char → Option Nat
  | [] => some a
  | c :: cs =>
      if 48 ≤ c.toNat ∧ c.toNat ≤ 57 then parseNatFrom (a * 10 + (c.toNat - 48)) cs
      else none

/-- Parses a non-empty all-digit character list as a natural number. -/
def parseNatChars : List Char → Option Nat
  | [] => none
  | c :: cs => parseNatFrom 0 (c :: cs)

/-- Decimal rendering of an integer: a leading minus sign for negative
values, digits otherwise. -/
def intDigits (n : Int) : List Char :=
  if n < 0 then '-' :: digitsOf (-n).toNat else digitsOf n.toNat

/-- Parses an optionally signed base-10 integer from characters. -/
def parseIntChars (cs : List Char) : Option Int :=
  match cs with
  | [] => none
  | c :: rest =>
      if c = '-' then (parseNatChars rest).map (fun m => -(m : Int))
      else if c = '+' then (parseNatChars rest).map (fun m => (m : Int))
      else (parseNatChars (c :: rest)).map (fun m => (m : Int))

/-- ASCII lowercasing of one character; non-letters are unchanged. -/
def asciiLower (c : Char) : Char :=
  if 65 ≤ c.toNat ∧ c.toNat ≤ 90 then Char.ofNat (c.toNat + 32) else c

/-- ASCII lowercasing of a whole string. -/
def lowerStr (s : String) : String := String.mk (s.data.map asciiLower)

/-- Modelled from the spec: the error taxonomy of the reconstructed core
(§7); the native library reports these conditions through error codes
that the binding never inspects individually. -/
inductive ErrorKind
  | pathNotFound
  | notARepository
  | permissionDenied
  | configParseError
  | keyNotFound
  | invalidValueType
  | malformedIdentifier
  | objectNotFound
  | objectTypeMismatch
  | corruptObject
  | noCommitsYet
  | corruptRef
deriving DecidableEq

/-- The package's error type, from `git.go`: a named wrapper around a
message string. -/
structure GitError where
  msg : String
deriving DecidableEq

/-- The `Error` method of `GitError`, from `git.go`: returns the wrapped
string unchanged. -/
def GitError.Error (e : GitError) : String := e.msg

/-- Modelled from the spec: the diagnostic message the native library's
last-error slot would carry for each failure kind; the binding only ever
forwards it verbatim. -/
def ErrorKind.message : ErrorKind → GitError
  | .pathNotFound => ⟨"path not found"⟩
  | .notARepository => ⟨"not a repository"⟩
  | .permissionDenied => ⟨"permission denied"⟩
  | .configParseError => ⟨"config parse error"⟩
  | .keyNotFound => ⟨"config value was not found"⟩
  | .invalidValueType => ⟨"invalid value type"⟩
  | .malformedIdentifier => ⟨"malformed identifier"⟩
  | .objectNotFound => ⟨"object not found"⟩
  | .objectTypeMismatch => ⟨"object type mismatch"⟩
  | .corruptObject => ⟨"corrupt object"⟩
  | .noCommitsYet => ⟨"no commits yet"⟩
  | .corruptRef => ⟨"corrupt reference"⟩

/-- Modelled from the spec: the in-memory configuration store (§3, §4.2),
an ordered mapping from dotted `"section.key"` names to string values;
bool and int64 accessors are parse/format views over the strings. -/
structure ConfigStore where
  entries : List (String × String)
deriving DecidableEq

/-- Modelled from the spec: raw string lookup in the store. -/
def ConfigStore.lookup (c : ConfigStore) (name : String) : Option String :=
  lookupKey c.entries name

/-- Modelled from the spec: raw string update, creating the key (and its
section) when absent. -/
def ConfigStore.setRaw (c : ConfigStore) (name value : String) : ConfigStore :=
  ⟨setKey c.entries name value⟩

/-- Modelled from the spec: `GetBool` semantics of the native config
layer (§4.2) — `KeyNotFound` when absent, the true-set and false-set
matched case-insensitively, `InvalidValueType` otherwise. -/
def ConfigStore.getBool (c : ConfigStore) (name : String) : Except ErrorKind Bool :=
  match c.lookup name with
  | none => .error .keyNotFound
  | some s =>
      if lowerStr s = "true" ∨ lowerStr s = "yes" ∨ lowerStr s = "on" ∨ lowerStr s = "1" then
        .ok true
      else if lowerStr s = "false" ∨ lowerStr s = "no" ∨ lowerStr s = "off" ∨ lowerStr s = "0" then
        .ok false
      else .error .invalidValueType

/-- Modelled from the spec: `SetBool` writes the canonical `true` or
`false` string. -/
def ConfigStore.setBool (c : ConfigStore) (name : String) (value : Bool) : ConfigStore :=
  c.setRaw name (if value then "true" else "false")

/-- Modelled from the spec: `GetString` is a raw passthrough;
absence is `KeyNotFound`. -/
def ConfigStore.getString (c : ConfigStore) (name : String) : Except ErrorKind String :=
  match c.lookup name with
  | none => .error .keyNotFound
  | some s => .ok s

/-- Modelled from the spec: `SetString` raw passthrough. -/
def ConfigStore.setString (c : ConfigStore) (name value : String) : ConfigStore :=
  c.setRaw name value

/-- Modelled from the spec: `GetInt64` parses the stored string as an
optionally signed base-10 integer, failing with `InvalidValueType` on
anything else. -/
def ConfigStore.getInt64 (c : ConfigStore) (name : String) : Except ErrorKind Int :=
  match c.lookup name with
  | none => .error .keyNotFound
  | some s =>
      match parseIntChars s.data with
      | some n => .ok n
      | none => .error .invalidValueType

/-- Modelled from the spec: `SetInt64` stores the decimal rendering. -/
def ConfigStore.setInt64 (c : ConfigStore) (name : String) (value : Int) : ConfigStore :=
  c.setRaw name (String.mk (intDigits value))

/-- The `Config` type from `git.go`: a handle wrapping the native
configuration object, here the modelled store. -/
structure Config where
  config : ConfigStore
deriving DecidableEq

/-- `Config.GetBool` from `git.go`: forwards to the native getter and on
failure returns the zero value `false` together with the last error. -/
def Config.GetBool (c : Config) (name : String) : Bool × Option GitError :=
  match c.config.getBool name with
  | .ok v => (v, none)
  | .error e => (false, some e.message)

/-- `Config.SetBool` from `git.go`: forwards the write; the modelled
in-memory write cannot fail. -/
def Config.SetBool (c : Config) (name : String) (value : Bool) : Config × Option GitError :=
  (⟨c.config.setBool name value⟩, none)

/-- `Config.GetString` from `git.go`: zero value on failure is `""`. -/
def Config.GetString (c : Config) (name : String) : String × Option GitError :=
  match c.config.getString name with
  | .ok v => (v, none)
  | .error e => ("", some e.message)

/-- `Config.SetString` from `git.go`. -/
def Config.SetString (c : Config) (name value : String) : Config × Option GitError :=
  (⟨c.config.setString name value⟩, none)

/-- `Config.GetInt64` from `git.go`: zero value on failure is `0`. -/
def Config.GetInt64 (c : Config) (name : String) : Int × Option GitError :=
  match c.config.getInt64 name with
  | .ok v => (v, none)
  | .error e => (0, some e.message)

/-- `Config.SetInt64` from `git.go`. -/
def Config.SetInt64 (c : Config) (name : String) (value : Int) : Config × Option GitError :=
  (⟨c.config.setInt64 name value⟩, none)

/-- Value of one hexadecimal character: decimal digits, then lowercase
and uppercase letter ranges; anything else is rejected. -/
def hexDigitVal (c : Char) : Option Nat :=
  if 48 ≤ c.toNat ∧ c.toNat ≤ 57 then some (c.toNat - 48)
  else if 97 ≤ c.toNat ∧ c.toNat ≤ 102 then some (c.toNat - 87)
  else if 65 ≤ c.toNat ∧ c.toNat ≤ 70 then some (c.toNat - 55)
  else none

/-- Canonical lowercase hexadecimal character for a value below 16. -/
def hexChar (d : Nat) : Char :=
  if d < 10 then Char.ofNat (48 + d) else Char.ofNat (87 + d)

/-- Parses an even-length run of hexadecimal characters into bytes,
two characters per byte, high nibble first. -/
def parseHexBytes : List Char → Option (List Nat)
  | [] => some []
  | [_] => none
  | c1 :: c2 :: rest =>
      match hexDigitVal c1 with
      | none => none
      | some hi =>
        match hexDigitVal c2 with
        | none => none
        | some lo =>
          match parseHexBytes rest with
          | none => none
          | some bs => some ((16 * hi + lo) :: bs)

/-- Renders bytes as lowercase hexadecimal characters, two per byte. -/
def formatHexBytes : List Nat → List Char
  | [] => []
  | b :: bs => hexChar (b / 16) :: hexChar (b % 16) :: formatHexBytes bs

/-- Modelled from the spec: the digest width of the identifier scheme,
20 bytes for a SHA-1-class hash (§3). -/
def hashWidth : Nat := 20

/-- Modelled from the spec: a content identifier is a fixed-size byte
array, always exactly the digest width (§3). -/
abbrev ContentIdentifier :=
  {bs : List Nat // bs.length = hashWidth ∧ ∀ b ∈ bs, b < 256}

/-- Modelled from the spec: `Parse` for content identifiers — fails with
`MalformedIdentifier` unless the input is exactly `2*width` hexadecimal
characters (§4.1). -/
def ContentIdentifier.parse (s : String) : Except ErrorKind ContentIdentifier :=
  match parseHexBytes s.data with
  | none => .error .malformedIdentifier
  | some bs =>
      if h : bs.length = hashWidth ∧ ∀ b ∈ bs, b < 256 then .ok ⟨bs, h⟩
      else .error .malformedIdentifier

/-- Modelled from the spec: `Format` for content identifiers —
deterministic lowercase hexadecimal (§4.1); this is what the binding's
`oidToString` obtains from the native library. -/
def ContentIdentifier.format (id : ContentIdentifier) : String :=
  String.mk (formatHexBytes id.val)

/-- Modelled from the spec: a stored object is a typed record — a commit
body naming a tree and parents, or a tree body listing entries (§4.3). -/
inductive ObjectData
  | commitObj (tree : ContentIdentifier) (parents : List ContentIdentifier)
  | treeObj (entries : List (Nat × String × ContentIdentifier))

/-- Modelled from the spec: the object database maps identifiers to
stored objects (§4.3). -/
abbrev ObjectStore := List (ContentIdentifier × ObjectData)

/-- The `Commit` type from `git.go`, with the native handle replaced by
the loaded object's content: its identifier, tree and parents. -/
structure Commit where
  id : ContentIdentifier
  tree : ContentIdentifier
  parents : List ContentIdentifier

/-- `Commit.Id` from `git.go`: the hexadecimal rendering of the commit's
object identifier. -/
def Commit.Id (c : Commit) : String := c.id.format

/-- Modelled from the spec: `LookupCommit` (§4.3) — `ObjectNotFound`
when the identifier is absent, `ObjectTypeMismatch` when the stored
object is not a commit. -/
def lookupCommit (db : ObjectStore) (id : ContentIdentifier) : Except ErrorKind Commit :=
  match lookupKey db id with
  | none => .error .objectNotFound
  | some (.commitObj t ps) => .ok ⟨id, t, ps⟩
  | some (.treeObj _) => .error .objectTypeMismatch

/-- Modelled from the spec: the parsed content of the `HEAD` file — a
symbolic pointer to a named reference or a raw identifier (§6). -/
inductive HeadRef
  | symbolic (refname : String)
  | direct (text : String)

/-- Consumes an expected literal character sequence from the front of a
list, returning the remainder, or nothing on a mismatch. -/
def consumeTag : List Char → List Char → Option (List Char)
  | [], cs => some cs
  | _ :: _, [] => none
  | p :: ps, c :: cs => if c = p then consumeTag ps cs else none

/-- Modelled from the spec: classification of the `HEAD` file content —
a line of the form `ref: <name>` is symbolic, anything else is treated
as a raw identifier (§6). -/
def parseHeadFile (s : String) : HeadRef :=
  match consumeTag ['r', 'e', 'f', ':', ' '] s.data with
  | some rest => .symbolic (String.mk rest)
  | none => .direct s

/-- Modelled from the spec: the on-disk state of one repository's
metadata directory — `HEAD`, the branch reference files, the config
file and the object store (§6). -/
structure RepoDisk where
  headFile : String
  branches : List (String × String)
  config : ConfigStore
  objects : ObjectStore

/-- Modelled from the spec: resolving `HEAD` to a content identifier —
a symbolic pointer is chased into the branch file (absence means
`NoCommitsYet`, an unborn branch); ref content that is not a valid
identifier is `CorruptRef` (§4.4). -/
def RepoDisk.resolveHead (d : RepoDisk) : Except ErrorKind ContentIdentifier :=
  match parseHeadFile d.headFile with
  | .symbolic refname =>
      match lookupKey d.branches refname with
      | none => .error .noCommitsYet
      | some content =>
          match ContentIdentifier.parse content with
          | .ok id => .ok id
          | .error _ => .error .corruptRef
  | .direct text =>
      match ContentIdentifier.parse text with
      | .ok id => .ok id
      | .error _ => .error .corruptRef

/-- Modelled from the spec: `Head` (§4.4) — resolve the `HEAD` reference
to an identifier, then delegate to `LookupCommit`; the binding's
`Repository.Head` performs exactly these two native calls. -/
def RepoDisk.Head (d : RepoDisk) : Except ErrorKind Commit :=
  match d.resolveHead with
  | .error e => .error e
  | .ok id => lookupCommit d.objects id

/-- The `Repository` type from `git.go`, owning the repository's path
(the native handle is the opened metadata directory). -/
structure Repository where
  path : String
deriving DecidableEq

/-- Modelled from the spec: what probing a filesystem path can observe
for `Open` — the path is missing, exists without the metadata
directory, is inaccessible, or is a valid repository (§4.4). -/
inductive PathProbe
  | missing
  | noMetadata
  | inaccessible
  | repo
deriving DecidableEq

/-- Modelled from the spec: `OpenRepository` over an abstract filesystem
probe — `PathNotFound` when the path does not exist, `NotARepository`
when it exists without the metadata directory, `PermissionDenied` on
access failure (§4.4). -/
def OpenRepository (fs : String → PathProbe) (path : String) : Except ErrorKind Repository :=
  match fs path with
  | .missing => .error .pathNotFound
  | .noMetadata => .error .notARepository
  | .inaccessible => .error .permissionDenied
  | .repo => .ok ⟨path⟩

/-- Modelled from the spec: a filesystem mapping paths to repository
metadata directories, for `Init` (§4.4). -/
abbrev FileSystem := List (String × RepoDisk)

/-- Modelled from the spec: the freshly created metadata layout — a
config file with defaults, an empty object store and a `HEAD` symbolic
reference pointing at a default branch (§4.4). -/
def defaultDisk (bare : Bool) : RepoDisk :=
  { headFile := "ref: refs/heads/master"
    branches := []
    config := ⟨[("core.bare", if bare then "true" else "false")]⟩
    objects := [] }

/-- Modelled from the spec: `InitRepository` — creates the metadata
layout when the path has none; re-running it on an already-initialized
path succeeds without touching the existing state (§4.4). -/
def InitRepository (fs : FileSystem) (path : String) (bare : Bool) :
    Repository × FileSystem :=
  match lookupKey fs path with
  | some _ => (⟨path⟩, fs)
  | none => (⟨path⟩, setKey fs path (defaultDisk bare))

theorem lookupKey_setKey_self {κ α : Type} [DecidableEq κ] (l : List (κ × α)) (k : κ) (v : α) :
    lookupKey (setKey l k v) k = some v := by
  induction l with
  | nil => simp [setKey, lookupKey]
  | cons p rest ih =>
    obtain ⟨k0, v0⟩ := p
    by_cases h : k0 = k
    · subst h
      simp [setKey, lookupKey]
    · simp only [setKey, if_neg h, lookupKey]
      exact ih

theorem lookupKey_setKey_other {κ α : Type} [DecidableEq κ] (l : List (κ × α)) (k k' : κ)
    (v : α) (hne : k' ≠ k) : lookupKey (setKey l k v) k' = lookupKey l k' := by
  induction l with
  | nil =>
    simp only [setKey, lookupKey]
    rw [if_neg (fun h => hne h.symm)]
  | cons p rest ih =>
    obtain ⟨k0, v0⟩ := p
    by_cases h : k0 = k
    · subst h
      simp only [setKey, if_pos rfl, lookupKey]
      rw [if_neg (fun h => hne h.symm), if_neg (fun h => hne h.symm)]
    · simp only [setKey, if_neg h, lookupKey]
      by_cases h' : k0 = k'
      · rw [if_pos h', if_pos h']
      · rw [if_neg h', if_neg h', ih]

theorem digitCharToNat : ∀ d, d < 10 → (Char.ofNat (48 + d)).toNat = 48 + d := by decide

theorem digitsOf_ne_nil (n : Nat) : digitsOf n ≠ [] := by
  rw [digitsOf]
  split <;> simp

theorem parseNatFrom_digitsOf (n : Nat) :
    ∀ a cs, parseNatFrom a (digitsOf n ++ cs) =
      parseNatFrom (a * 10 ^ (digitsOf n).length + n) cs := by
  induction n using Nat.strong_induction_on with
  | _ n ih =>
    intro a cs
    by_cases h : n < 10
    · rw [digitsOf, dif_pos h]
      simp only [List.singleton_append, List.length_singleton, parseNatFrom]
      rw [digitCharToNat n h, if_pos (by omega)]
      have : a * 10 + (48 + n - 48) = a * 10 ^ 1 + n := by omega
      rw [this]
      simp
    · rw [digitsOf, dif_neg h]
      rw [List.append_assoc, List.singleton_append]
      rw [ih (n / 10) (Nat.div_lt_self (by omega) (by omega))]
      simp only [parseNatFrom]
      rw [digitCharToNat (n % 10) (Nat.mod_lt n (by omega)), if_pos (by omega)]
      have hlen : (digitsOf (n / 10) ++ [Char.ofNat (48 + n % 10)]).length =
          (digitsOf (n / 10)).length + 1 := by simp
      rw [hlen, pow_succ]
      have hmul : a * (10 ^ (digitsOf (n / 10)).length * 10) =
          a * 10 ^ (digitsOf (n / 10)).length * 10 := by ring
      rw [hmul]
      generalize a * 10 ^ (digitsOf (n / 10)).length = m
      have : m * 10 + n / 10 * 10 + (48 + n % 10 - 48) = m * 10 + n := by omega
      rw [show (m + n / 10) * 10 + (48 + n % 10 - 48) = m * 10 + n by omega]

theorem parseNatChars_digitsOf (n : Nat) : parseNatChars (digitsOf n) = some n := by
  cases hd : digitsOf n with
  | nil => exact absurd hd (digitsOf_ne_nil n)
  | cons c cs =>
    have h0 : parseNatChars (c :: cs) = parseNatFrom 0 (c :: cs) := rfl
    rw [h0, ← hd, ← List.append_nil (digitsOf n), parseNatFrom_digitsOf]
    simp [parseNatFrom]

theorem digitsOf_head_digit (n : Nat) :
    ∀ c cs, digitsOf n = c :: cs → 48 ≤ c.toNat ∧ c.toNat ≤ 57 := by
  induction n using Nat.strong_induction_on with
  | _ n ih =>
    intro c cs h
    by_cases h10 : n < 10
    · rw [digitsOf, dif_pos h10] at h
      have hc : c = Char.ofNat (48 + n) := (List.head_eq_of_cons_eq h).symm
      rw [hc, digitCharToNat n h10]
      omega
    · rw [digitsOf, dif_neg h10] at h
      cases hd : digitsOf (n / 10) with
      | nil => exact absurd hd (digitsOf_ne_nil _)
      | cons c0 cs0 =>
        rw [hd, List.cons_append] at h
        have hc : c0 = c := List.head_eq_of_cons_eq h
        exact hc ▸ ih (n / 10) (Nat.div_lt_self (by omega) (by omega)) c0 cs0 hd

theorem parseIntChars_intDigits (n : Int) : parseIntChars (intDigits n) = some n := by
  by_cases hneg : n < 0
  · rw [intDigits, if_pos hneg]
    simp only [parseIntChars, if_pos rfl]
    rw [parseNatChars_digitsOf]
    show some (-(((-n).toNat : Nat) : Int)) = some n
    congr 1
    omega
  · rw [intDigits, if_neg hneg]
    cases hd : digitsOf n.toNat with
    | nil => exact absurd hd (digitsOf_ne_nil _)
    | cons c cs =>
      have hdig := digitsOf_head_digit n.toNat c cs hd
      have hminus : Char.toNat '-' = 45 := by decide
      have hplus : Char.toNat '+' = 43 := by decide
      simp only [parseIntChars]
      rw [if_neg (fun he => by rw [he, hminus] at hdig; omega),
        if_neg (fun he => by rw [he, hplus] at hdig; omega)]
      rw [← hd, parseNatChars_digitsOf]
      show some (((n.toNat : Nat) : Int)) = some n
      congr 1
      omega

theorem configLookup_setRaw_self (c : ConfigStore) (name v : String) :
    (c.setRaw name v).lookup name = some v :=
  lookupKey_setKey_self c.entries name v

theorem configLookup_setRaw_other (c : ConfigStore) (name name' v : String)
    (hne : name' ≠ name) : (c.setRaw name v).lookup name' = c.lookup name' :=
  lookupKey_setKey_other c.entries name name' v hne

theorem getInt64_of_lookup (c : ConfigStore) (name s : String) (h : c.lookup name = some s) :
    c.getInt64 name =
      match parseIntChars s.data with
      | some n => .ok n
      | none => .error .invalidValueType := by
  unfold ConfigStore.getInt64
  rw [h]

theorem getBool_of_lookup (c : ConfigStore) (name s : String) (h : c.lookup name = some s) :
    c.getBool name =
      if lowerStr s = "true" ∨ lowerStr s = "yes" ∨ lowerStr s = "on" ∨ lowerStr s = "1" then
        .ok true
      else if lowerStr s = "false" ∨ lowerStr s = "no" ∨ lowerStr s = "off" ∨ lowerStr s = "0" then
        .ok false
      else .error .invalidValueType := by
  unfold ConfigStore.getBool
  rw [h]

theorem getString_of_lookup (c : ConfigStore) (name s : String) (h : c.lookup name = some s) :
    c.getString name = .ok s := by
  unfold ConfigStore.getString
  rw [h]

theorem getString_eq_ok (c : ConfigStore) (name s : String) (h : c.getString name = .ok s) :
    c.lookup name = some s := by
  cases hl : c.lookup name with
  | none => simp [ConfigStore.getString, hl] at h
  | some s0 =>
    rw [getString_of_lookup c name s0 hl] at h
    injection h with h0
    exact congrArg some h0

theorem getInt64_setInt64 (c : ConfigStore) (name : String) (n : Int) :
    (c.setInt64 name n).getInt64 name = .ok n := by
  unfold ConfigStore.setInt64
  rw [getInt64_of_lookup _ name (String.mk (intDigits n)) (configLookup_setRaw_self c name _)]
  rw [show (String.mk (intDigits n)).data = intDigits n from rfl, parseIntChars_intDigits]

theorem getBool_setBool (c : ConfigStore) (name : String) (b : Bool) :
    (c.setBool name b).getBool name = .ok b := by
  cases b with
  | false =>
    unfold ConfigStore.setBool
    show (c.setRaw name "false").getBool name = .ok false
    rw [getBool_of_lookup _ name "false" (configLookup_setRaw_self c name _)]
    rw [if_neg (by decide), if_pos (by decide)]
  | true =>
    unfold ConfigStore.setBool
    show (c.setRaw name "true").getBool name = .ok true
    rw [getBool_of_lookup _ name "true" (configLookup_setRaw_self c name _)]
    rw [if_pos (by decide)]

theorem getString_setString (c : ConfigStore) (name v : String) :
    (c.setString name v).getString name = .ok v :=
  getString_of_lookup _ name v (configLookup_setRaw_self c name v)

/-- C1: for every name and every 64-bit signed integer `n` in
`[-2^63, 2^63 - 1]` (including `-9223372036854775808`), `SetInt64(name, n)`
followed by `GetInt64(name)` on the same store returns exactly `n`. -/
theorem setInt64_getInt64_roundTrip (c : Config) (name : String) (n : Int)
    (h1 : -(2 ^ 63) ≤ n) (h2 : n ≤ 2 ^ 63 - 1) :
    ((c.SetInt64 name n).1).GetInt64 name = (n, none) := by
  unfold Config.GetInt64 Config.SetInt64
  rw [getInt64_setInt64]

/-- Witness for C1 at the extreme input `-9223372036854775808`. -/
theorem setInt64_getInt64_roundTrip_check :
    ((Config.mk ⟨[]⟩).SetInt64 "section.commits" (-9223372036854775808)).1.GetInt64
      "section.commits" = (-9223372036854775808, none) :=
  setInt64_getInt64_roundTrip ⟨⟨[]⟩⟩ "section.commits" (-9223372036854775808)
    (by decide) (by decide)

/-- C3: every `Set*` is immediately visible to the matching `Get*` on the
same store instance (read-your-writes), for the bool, string and int64
accessor pairs alike. -/
theorem set_get_read_your_writes (c : Config) (name : String) :
    (∀ b, ((c.SetBool name b).1).GetBool name = (b, none)) ∧
    (∀ v, ((c.SetString name v).1).GetString name = (v, none)) ∧
    (∀ n, -(2 ^ 63) ≤ n → n ≤ 2 ^ 63 - 1 →
      ((c.SetInt64 name n).1).GetInt64 name = (n, none)) := by
  refine ⟨fun b => ?_, fun v => ?_, fun n h1 h2 => ?_⟩
  · unfold Config.GetBool Config.SetBool
    rw [getBool_setBool]
  · unfold Config.GetString Config.SetString
    rw [getString_setString]
  · exact setInt64_getInt64_roundTrip c name n h1 h2

/-- Witness for C3 on a concrete store and name. -/
theorem set_get_read_your_writes_check :
    ((Config.mk ⟨[]⟩).SetBool "core.ignorecase" true).1.GetBool "core.ignorecase"
      = (true, none) ∧
    ((Config.mk ⟨[]⟩).SetString "github.user" "fsouza").1.GetString "github.user"
      = ("fsouza", none) ∧
    ((Config.mk ⟨[]⟩).SetInt64 "section.commits" 800).1.GetInt64 "section.commits"
      = (800, none) := by
  have h := set_get_read_your_writes ⟨⟨[]⟩⟩ "core.ignorecase"
  have h2 := set_get_read_your_writes ⟨⟨[]⟩⟩ "github.user"
  have h3 := set_get_read_your_writes ⟨⟨[]⟩⟩ "section.commits"
  exact ⟨h.1 true, h2.2.1 "fsouza", h3.2.2 800 (by decide) (by decide)⟩

/-- C4: `GetBool` fails with `KeyNotFound` on an absent key; on a stored
string it returns `true` for the true-set, `false` for the false-set
(case-insensitively), and fails with `InvalidValueType` otherwise. -/
theorem getBool_semantics (c : ConfigStore) (name : String) :
    (c.lookup name = none → c.getBool name = .error .keyNotFound) ∧
    (∀ s, c.lookup name = some s →
      ((lowerStr s ∈ (["true", "yes", "on", "1"] : List String) →
          c.getBool name = .ok true) ∧
       (lowerStr s ∈ (["false", "no", "off", "0"] : List String) →
          c.getBool name = .ok false) ∧
       (lowerStr s ∉ (["true", "yes", "on", "1"] : List String) →
        lowerStr s ∉ (["false", "no", "off", "0"] : List String) →
          c.getBool name = .error .invalidValueType))) := by
  constructor
  · intro h
    unfold ConfigStore.getBool
    rw [h]
  · intro s h
    rw [getBool_of_lookup c name s h]
    simp only [List.mem_cons, List.not_mem_nil, or_false]
    refine ⟨fun ht => ?_, fun hf => ?_, fun hnt hnf => ?_⟩
    · rw [if_pos ht]
    · have hnt : ¬(lowerStr s = "true" ∨ lowerStr s = "yes" ∨ lowerStr s = "on" ∨
          lowerStr s = "1") := by
        rintro (h1 | h1 | h1 | h1) <;> rcases hf with h2 | h2 | h2 | h2 <;>
          exact absurd (h1.symm.trans h2) (by decide)
      rw [if_neg hnt, if_pos hf]
    · rw [if_neg hnt, if_neg hnf]

/-- Witness for C4: an absent key, a case-insensitive true-value, a
false-value, and an invalid value. -/
theorem getBool_semantics_check :
    (⟨[]⟩ : ConfigStore).getBool "core.ignorecase" = .error .keyNotFound ∧
    (⟨[("core.ignorecase", "YES")]⟩ : ConfigStore).getBool "core.ignorecase" = .ok true ∧
    (⟨[("core.ignorecase", "Off")]⟩ : ConfigStore).getBool "core.ignorecase" = .ok false ∧
    (⟨[("core.ignorecase", "maybe")]⟩ : ConfigStore).getBool "core.ignorecase"
      = .error .invalidValueType := by
  refine ⟨(getBool_semantics ⟨[]⟩ "core.ignorecase").1 rfl, ?_, ?_, ?_⟩
  · exact (((getBool_semantics ⟨[("core.ignorecase", "YES")]⟩ "core.ignorecase").2
      "YES" rfl).1) (by decide)
  · exact (((getBool_semantics ⟨[("core.ignorecase", "Off")]⟩ "core.ignorecase").2
      "Off" rfl).2.1) (by decide)
  · exact (((getBool_semantics ⟨[("core.ignorecase", "maybe")]⟩ "core.ignorecase").2
      "maybe" rfl).2.2) (by decide) (by decide)

/-- C7: a `Set*` on a previously absent key `k` leaves the value observed
at any other present key `k'` unchanged, for all three setter types. -/
theorem set_preserves_other_keys (c : Config) (k k' v : String)
    (habsent : c.config.lookup k = none)
    (hpresent : c.GetString k' = (v, none)) :
    (∀ b, ((c.SetBool k b).1).GetString k' = (v, none)) ∧
    (∀ s, ((c.SetString k s).1).GetString k' = (v, none)) ∧
    (∀ n, ((c.SetInt64 k n).1).GetString k' = (v, none)) := by
  have hlk : c.config.lookup k' = some v := by
    unfold Config.GetString at hpresent
    cases hg : c.config.getString k' with
    | ok s0 =>
      rw [hg] at hpresent
      have : s0 = v := by
        have := congrArg Prod.fst hpresent
        simpa using this
      exact getString_eq_ok _ _ _ (this ▸ hg)
    | error e =>
      rw [hg] at hpresent
      have := congrArg Prod.snd hpresent
      simp at this
  have hne : k' ≠ k := fun he => by rw [he, habsent] at hlk; exact absurd hlk (by simp)
  refine ⟨fun b => ?_, fun s => ?_, fun n => ?_⟩
  · unfold Config.GetString Config.SetBool
    rw [getString_of_lookup _ k' v
      (by rw [ConfigStore.setBool, configLookup_setRaw_other _ _ _ _ hne]; exact hlk)]
  · unfold Config.GetString Config.SetString
    rw [getString_of_lookup _ k' v
      (by rw [ConfigStore.setString, configLookup_setRaw_other _ _ _ _ hne]; exact hlk)]
  · unfold Config.GetString Config.SetInt64
    rw [getString_of_lookup _ k' v
      (by rw [ConfigStore.setInt64, configLookup_setRaw_other _ _ _ _ hne]; exact hlk)]

/-- Witness for C7 on a concrete store. -/
theorem set_preserves_other_keys_check :
    ((Config.mk ⟨[("github.user", "fsouza")]⟩).SetBool "github.login" true).1.GetString
      "github.user" = ("fsouza", none) ∧
    ((Config.mk ⟨[("github.user", "fsouza")]⟩).SetString "github.login" "x").1.GetString
      "github.user" = ("fsouza", none) ∧
    ((Config.mk ⟨[("github.user", "fsouza")]⟩).SetInt64 "github.login" 7).1.GetString
      "github.user" = ("fsouza", none) := by
  have h := set_preserves_other_keys ⟨⟨[("github.user", "fsouza")]⟩⟩ "github.login"
    "github.user" "fsouza" rfl rfl
  exact ⟨h.1 true, h.2.1 "x", h.2.2 7⟩

/-- C9: a `GitError` constructed from a string `s` answers `s` unchanged
from its `Error` method — the type is an identity wrapper. -/
theorem gitError_identity (s : String) : (GitError.mk s).Error = s := rfl

/-- C10: whenever a config getter fails (its error component is present)
it returns the zero value of its result type: `false`, `""`, or `0`. -/
theorem getters_zero_on_error (c : Config) (name : String) :
    ((c.GetBool name).2.isSome → (c.GetBool name).1 = false) ∧
    ((c.GetString name).2.isSome → (c.GetString name).1 = "") ∧
    ((c.GetInt64 name).2.isSome → (c.GetInt64 name).1 = 0) := by
  refine ⟨fun hb => ?_, fun hs => ?_, fun hn => ?_⟩
  · unfold Config.GetBool at *
    cases hg : c.config.getBool name with
    | ok v => rw [hg] at hb; simp at hb
    | error e => rfl
  · unfold Config.GetString at *
    cases hg : c.config.getString name with
    | ok v => rw [hg] at hs; simp at hs
    | error e => rfl
  · unfold Config.GetInt64 at *
    cases hg : c.config.getInt64 name with
    | ok v => rw [hg] at hn; simp at hn
    | error e => rfl

/-- Witness for C10 on an empty store, where every getter fails. -/
theorem getters_zero_on_error_check :
    ((Config.mk ⟨[]⟩).GetBool "core.missing").1 = false ∧
    ((Config.mk ⟨[]⟩).GetString "core.missing").1 = "" ∧
    ((Config.mk ⟨[]⟩).GetInt64 "core.missing").1 = 0 := by
  have h := getters_zero_on_error ⟨⟨[]⟩⟩ "core.missing"
  exact ⟨h.1 (by decide), h.2.1 (by decide), h.2.2 (by decide)⟩

theorem hexDigitVal_lt (c : Char) (d : Nat) (h : hexDigitVal c = some d) : d < 16 := by
  unfold hexDigitVal at h
  by_cases hA : 48 ≤ c.toNat ∧ c.toNat ≤ 57
  · rw [if_pos hA] at h
    injection h with h0
    omega
  · rw [if_neg hA] at h
    by_cases hB : 97 ≤ c.toNat ∧ c.toNat ≤ 102
    · rw [if_pos hB] at h
      injection h with h0
      omega
    · rw [if_neg hB] at h
      by_cases hC : 65 ≤ c.toNat ∧ c.toNat ≤ 70
      · rw [if_pos hC] at h
        injection h with h0
        omega
      · rw [if_neg hC] at h
        exact absurd h (by simp)

theorem hexChar_asciiLower (c : Char) (d : Nat) (h : hexDigitVal c = some d) :
    hexChar d = asciiLower c := by
  unfold hexDigitVal at h
  unfold hexChar asciiLower
  by_cases hA : 48 ≤ c.toNat ∧ c.toNat ≤ 57
  · rw [if_pos hA] at h
    injection h with h0
    subst h0
    rw [if_pos (by omega), show 48 + (c.toNat - 48) = c.toNat by omega,
      if_neg (by omega), Char.ofNat_toNat]
  · rw [if_neg hA] at h
    by_cases hB : 97 ≤ c.toNat ∧ c.toNat ≤ 102
    · rw [if_pos hB] at h
      injection h with h0
      subst h0
      rw [if_neg (by omega), show 87 + (c.toNat - 87) = c.toNat by omega,
        if_neg (by omega), Char.ofNat_toNat]
    · rw [if_neg hB] at h
      by_cases hC : 65 ≤ c.toNat ∧ c.toNat ≤ 70
      · rw [if_pos hC] at h
        injection h with h0
        subst h0
        rw [if_neg (by omega), show 87 + (c.toNat - 55) = c.toNat + 32 by omega,
          if_pos (by omega)]
      · rw [if_neg hC] at h
        exact absurd h (by simp)

theorem formatHexBytes_of_parse :
    ∀ (cs : List Char) (bs : List Nat), parseHexBytes cs = some bs →
      formatHexBytes bs = List.map asciiLower cs
  | [], bs, h => by
    simp [parseHexBytes] at h
    subst h
    rfl
  | [c], bs, h => by simp [parseHexBytes] at h
  | c1 :: c2 :: rest, bs, h => by
    unfold parseHexBytes at h
    cases hc1 : hexDigitVal c1 with
    | none => simp [hc1] at h
    | some hi =>
      cases hc2 : hexDigitVal c2 with
      | none => simp [hc1, hc2] at h
      | some lo =>
        cases hr : parseHexBytes rest with
        | none => simp [hc1, hc2, hr] at h
        | some bs0 =>
          simp only [hc1, hc2, hr, Option.some.injEq] at h
          subst h
          unfold formatHexBytes
          rw [formatHexBytes_of_parse rest bs0 hr]
          have hhi : hi < 16 := hexDigitVal_lt c1 hi hc1
          have hlo : lo < 16 := hexDigitVal_lt c2 lo hc2
          rw [show (16 * hi + lo) / 16 = hi by omega,
            show (16 * hi + lo) % 16 = lo by omega]
          rw [hexChar_asciiLower c1 hi hc1, hexChar_asciiLower c2 lo hc2]
          rfl

theorem parseHexBytes_total :
    ∀ cs : List Char, (∀ c ∈ cs, (hexDigitVal c).isSome) → cs.length % 2 = 0 →
      ∃ bs, parseHexBytes cs = some bs ∧ 2 * bs.length = cs.length ∧ ∀ b ∈ bs, b < 256
  | [], _, _ => ⟨[], rfl, rfl, by simp⟩
  | [c], _, hlen => by simp at hlen
  | c1 :: c2 :: rest, hall, hlen => by
    have h1 : (hexDigitVal c1).isSome := hall c1 (by simp)
    have h2 : (hexDigitVal c2).isSome := hall c2 (by simp)
    rw [Option.isSome_iff_exists] at h1 h2
    obtain ⟨d1, hd1⟩ := h1
    obtain ⟨d2, hd2⟩ := h2
    obtain ⟨bs, hbs, hblen, hlt⟩ :=
      parseHexBytes_total rest (fun c hc => hall c (by simp [hc]))
        (by simp only [List.length_cons] at hlen; omega)
    refine ⟨(16 * d1 + d2) :: bs, ?_, ?_, ?_⟩
    · unfold parseHexBytes
      rw [hd1, hd2, hbs]
    · simp only [List.length_cons]
      omega
    · intro b hb
      rcases List.mem_cons.mp hb with rfl | hb2
      · have hl1 := hexDigitVal_lt c1 d1 hd1
        have hl2 := hexDigitVal_lt c2 d2 hd2
        omega
      · exact hlt b hb2

theorem formatHexBytes_length : ∀ bs : List Nat, (formatHexBytes bs).length = 2 * bs.length
  | [] => rfl
  | b :: bs => by
    unfold formatHexBytes
    simp only [List.length_cons, formatHexBytes_length bs]
    omega

theorem hexChar_lowerHex :
    ∀ d, d < 16 → (hexDigitVal (hexChar d)).isSome ∧ asciiLower (hexChar d) = hexChar d := by
  decide

theorem formatHexBytes_chars :
    ∀ bs : List Nat, (∀ b ∈ bs, b < 256) →
      ∀ c ∈ formatHexBytes bs, (hexDigitVal c).isSome ∧ asciiLower c = c
  | [], _, c, hc => by simp [formatHexBytes] at hc
  | b :: bs, hall, c, hc => by
    have hb : b < 256 := hall b (by simp)
    unfold formatHexBytes at hc
    rcases List.mem_cons.mp hc with rfl | hc2
    · exact hexChar_lowerHex _ (by omega)
    · rcases List.mem_cons.mp hc2 with rfl | hc3
      · exact hexChar_lowerHex _ (by omega)
      · exact formatHexBytes_chars bs (fun x hx => hall x (by simp [hx])) c hc3

theorem format_of_parse (s : String) (id : ContentIdentifier)
    (h : ContentIdentifier.parse s = .ok id) : id.format = lowerStr s := by
  unfold ContentIdentifier.parse at h
  cases hpb : parseHexBytes s.data with
  | none => simp [hpb] at h
  | some bs =>
    by_cases hcond : bs.length = hashWidth ∧ ∀ b ∈ bs, b < 256
    · simp only [hpb, dif_pos hcond, Except.ok.injEq] at h
      subst h
      exact congrArg String.mk (formatHexBytes_of_parse s.data bs hpb)
    · simp [hpb, dif_neg hcond] at h

/-- C2: for every valid hexadecimal string of exactly `2*width`
characters, `Format(Parse(s))` equals `lowercase(s)`; and `Format`
always yields a lowercase hexadecimal string of exactly `2*width`
characters. -/
theorem identifier_roundTrip (s : String)
    (hlen : s.data.length = 2 * hashWidth)
    (hhex : ∀ c ∈ s.data, (hexDigitVal c).isSome) :
    (∃ id, ContentIdentifier.parse s = .ok id ∧ id.format = lowerStr s) ∧
    (∀ id : ContentIdentifier, (id.format).data.length = 2 * hashWidth ∧
      ∀ c ∈ (id.format).data, (hexDigitVal c).isSome ∧ asciiLower c = c) := by
  constructor
  · obtain ⟨bs, hbs, hblen, hlt⟩ := parseHexBytes_total s.data hhex (by rw [hlen]; omega)
    have hcond : bs.length = hashWidth ∧ ∀ b ∈ bs, b < 256 := ⟨by omega, hlt⟩
    have hparse : ContentIdentifier.parse s = .ok ⟨bs, hcond⟩ := by
      unfold ContentIdentifier.parse
      simp only [hbs]
      rw [dif_pos hcond]
    exact ⟨⟨bs, hcond⟩, hparse, format_of_parse s _ hparse⟩
  · intro id
    refine ⟨?_, formatHexBytes_chars id.val id.2.2⟩
    show (formatHexBytes id.val).length = 2 * hashWidth
    rw [formatHexBytes_length, id.2.1]

/-- Witness for C2 on a concrete 40-character mixed-case hex string. -/
theorem identifier_roundTrip_check :
    ∃ id, ContentIdentifier.parse "00FF00ff00FF00ff00FF00ff00FF00ff00FF00ff" = .ok id ∧
      id.format = lowerStr "00FF00ff00FF00ff00FF00ff00FF00ff00FF00ff" :=
  (identifier_roundTrip "00FF00ff00FF00ff00FF00ff00FF00ff00FF00ff"
    (by decide) (by decide)).1

theorem consumeTag_append : ∀ ps cs : List Char, consumeTag ps (ps ++ cs) = some cs
  | [], _ => rfl
  | p :: ps, cs => by
    show (if p = p then consumeTag ps (ps ++ cs) else none) = some cs
    rw [if_pos rfl]
    exact consumeTag_append ps cs

theorem parseHeadFile_symbolic (br : String) :
    parseHeadFile ("ref: " ++ br) = .symbolic br := by
  unfold parseHeadFile
  rw [String.data_append, show ("ref: " : String).data = ['r', 'e', 'f', ':', ' '] from rfl,
    consumeTag_append]

/-- C5: in a repository whose `HEAD` names a branch holding a valid hex
identifier and whose object store contains exactly one commit under that
identifier, `Head()` succeeds with a `Commit` whose `Id()` equals that
externally known identifier (lowercased), independent of the object
store. -/
theorem head_single_commit (d : RepoDisk) (br hex : String)
    (id t : ContentIdentifier) (ps : List ContentIdentifier)
    (hhead : d.headFile = "ref: " ++ br)
    (hbr : d.branches = [(br, hex)])
    (hobj : d.objects = [(id, ObjectData.commitObj t ps)])
    (hid : ContentIdentifier.parse hex = .ok id) :
    ∃ c, d.Head = .ok c ∧ c.Id = lowerStr hex := by
  refine ⟨⟨id, t, ps⟩, ?_, ?_⟩
  · have hresolve : d.resolveHead = .ok id := by
      unfold RepoDisk.resolveHead
      rw [hhead, parseHeadFile_symbolic, hbr]
      simp [lookupKey, hid]
    unfold RepoDisk.Head
    rw [hresolve, hobj]
    unfold lookupCommit
    simp [lookupKey]
  · show Commit.Id ⟨id, t, ps⟩ = lowerStr hex
    unfold Commit.Id
    exact format_of_parse hex id hid

/-- Concrete identifier for the witnesses: twenty zero bytes. -/
def sampleId : ContentIdentifier := ⟨List.replicate 20 0, by decide⟩

/-- Concrete single-commit repository state for the C5 witness. -/
def sampleRepo : RepoDisk :=
  { headFile := "ref: refs/heads/master"
    branches := [("refs/heads/master", "0000000000000000000000000000000000000000")]
    config := ⟨[]⟩
    objects := [(sampleId, .commitObj sampleId [])] }

/-- Witness for C5 on the concrete single-commit repository. -/
theorem head_single_commit_check :
    ∃ c, sampleRepo.Head = .ok c ∧
      c.Id = lowerStr "0000000000000000000000000000000000000000" :=
  head_single_commit sampleRepo "refs/heads/master"
    "0000000000000000000000000000000000000000" sampleId sampleId []
    (by decide) rfl rfl (by rfl)

/-- C6: `Open` fails with `PathNotFound` when the path does not exist,
`NotARepository` when it exists without the metadata directory, and
`PermissionDenied` on access failure; the three failure kinds are
distinguishable typed results. -/
theorem open_error_taxonomy (fs : String → PathProbe) (path : String) :
    (fs path = .missing → OpenRepository fs path = .error .pathNotFound) ∧
    (fs path = .noMetadata → OpenRepository fs path = .error .notARepository) ∧
    (fs path = .inaccessible → OpenRepository fs path = .error .permissionDenied) ∧
    (ErrorKind.pathNotFound ≠ ErrorKind.notARepository ∧
     ErrorKind.pathNotFound ≠ ErrorKind.permissionDenied ∧
     ErrorKind.notARepository ≠ ErrorKind.permissionDenied) := by
  refine ⟨fun h => ?_, fun h => ?_, fun h => ?_, by decide, by decide, by decide⟩
  all_goals
    unfold OpenRepository
    rw [h]

/-- Witness for C6 on concrete probes for each of the three failures. -/
theorem open_error_taxonomy_check :
    OpenRepository (fun _ => .missing) "/tmp/gitrepo" = .error .pathNotFound ∧
    OpenRepository (fun _ => .noMetadata) "/tmp/gitrepo" = .error .notARepository ∧
    OpenRepository (fun _ => .inaccessible) "/tmp/gitrepo" = .error .permissionDenied :=
  ⟨(open_error_taxonomy (fun _ => .missing) "/tmp/gitrepo").1 rfl,
   (open_error_taxonomy (fun _ => .noMetadata) "/tmp/gitrepo").2.1 rfl,
   (open_error_taxonomy (fun _ => .inaccessible) "/tmp/gitrepo").2.2.1 rfl⟩

/-- C8: `Init` on a path that already holds an initialized repository
succeeds and leaves the existing state — in particular its objects and
its config — unchanged. -/
theorem init_idempotent (fs : FileSystem) (path : String) (bare : Bool) (d : RepoDisk)
    (h : lookupKey fs path = some d) :
    (InitRepository fs path bare).2 = fs ∧
    ∃ d2, lookupKey (InitRepository fs path bare).2 path = some d2 ∧
      d2.objects = d.objects ∧ d2.config = d.config := by
  unfold InitRepository
  rw [h]
  exact ⟨rfl, d, h, rfl, rfl⟩

/-- Witness for C8 on a concrete one-repository filesystem. -/
theorem init_idempotent_check :
    (InitRepository [("/tmp/gitrepo", defaultDisk false)] "/tmp/gitrepo" true).2
      = [("/tmp/gitrepo", defaultDisk false)] ∧
    ∃ d2,
      lookupKey (InitRepository [("/tmp/gitrepo", defaultDisk false)] "/tmp/gitrepo" true).2
        "/tmp/gitrepo" = some d2 ∧
      d2.objects = (defaultDisk false).objects ∧ d2.config = (defaultDisk false).config :=
  init_idempotent [("/tmp/gitrepo", defaultDisk false)] "/tmp/gitrepo" true
    (defaultDisk false) (by rfl)

end Gogit
